import Mathlib

/-!
Verification development for the streaming event bridge repository
(web chat route, error classifier, session history store, tool-call
correlator, SSE line parser).

The definitions below are a shallow embedding of the TypeScript source:

* `src/unnamed/part_001` — the error classifier
  (`parseApiErrorInfo`, `isContextOverflowError`, `classifyError`,
  `isNonRetryableError`, …);
* `src/web/app/api/chat/route.ts` — the streaming bridge (`POST`/`run`),
  the inline tool-call correlator, the SSE line parsing loop and the
  remote passthrough (`streamFromLangSmith`).

JavaScript strings are modelled as `List Char` (one entry per UTF-16ish
code point; all the patterns involved are plain ASCII or BMP text) and
`String` at the API boundary.  JavaScript regular expressions that the
source applies are each embedded as an executable Lean predicate that
implements the matching semantics of that concrete pattern; the doc
comment of each such definition quotes the pattern it embeds.
-/

set_option autoImplicit false

namespace TinyD

/-- JavaScript whitespace as used by `trim`/`trimEnd`/`\s` (the ASCII
whitespace characters; the source material never exercises the exotic
Unicode space characters, which are omitted). -/
def isJsWs (c : Char) : Bool :=
  c = ' ' || c = '\t' || c = '\n' || c = '\r' || c = '\x0b' || c = '\x0c'

/-- JavaScript regex word character `\w`, i.e. `[A-Za-z0-9_]`. -/
def isWordChar (c : Char) : Bool :=
  c.isAlphanum || c = '_'

/-- `toLowerCase` of a JS string, character by character. -/
def lowerL (l : List Char) : List Char :=
  l.map Char.toLower

/-- Drop leading JS whitespace (the first half of `trim`). -/
def skipWs (l : List Char) : List Char :=
  l.dropWhile isJsWs

/-- JS `trimEnd`. -/
def trimEndL (l : List Char) : List Char :=
  (l.reverse.dropWhile isJsWs).reverse

/-- JS `trim`. -/
def trimL (l : List Char) : List Char :=
  trimEndL (skipWs l)

/-- Match a literal pattern at the head of the text; on success return
the rest of the text. -/
def litAt : List Char → List Char → Option (List Char)
  | [], rest => some rest
  | _ :: _, [] => none
  | p :: ps, c :: cs => if c = p then litAt ps cs else none

/-- Case-insensitive variant of `litAt`; the pattern is given in
lowercase and text characters are lowered before comparison (the
embedding of a `/i` regex literal). -/
def litCIAt : List Char → List Char → Option (List Char)
  | [], rest => some rest
  | _ :: _, [] => none
  | p :: ps, c :: cs => if c.toLower = p then litCIAt ps cs else none

/-- JS `String.prototype.includes`: the needle occurs somewhere in the
haystack. -/
def containsSub (needle : List Char) : List Char → Bool
  | [] => (litAt needle []).isSome
  | c :: t => (litAt needle (c :: t)).isSome || containsSub needle t

/-- Case-insensitive containment (embedding of an unanchored `/…/i`
regex alternative that is a plain literal). -/
def containsCI (needle : List Char) : List Char → Bool
  | [] => (litCIAt needle []).isSome
  | c :: t => (litCIAt needle (c :: t)).isSome || containsCI needle t

/-- Does some suffix of the text satisfy the matcher (regex scan over
all start positions)? -/
def anySuffix (f : List Char → Bool) : List Char → Bool
  | [] => f []
  | c :: t => f (c :: t) || anySuffix f t

/-- The opening brace character (written numerically). -/
def lcurly : Char := Char.ofNat 123

/-- The closing brace character (written numerically). -/
def rcurly : Char := Char.ofNat 125

/-- The double quote character. -/
def dquote : Char := Char.ofNat 34

/-- The single quote character. -/
def squote : Char := Char.ofNat 39

/-- Decimal digit character for a value below ten. -/
def digitChar (n : Nat) : Char := Char.ofNat (48 + n)

/-- Fuelled big-endian decimal rendering (the fuel is an upper bound on
the value, so it never runs out). -/
def decRenderAux : Nat → Nat → List Char
  | 0, _ => []
  | f + 1, n =>
    if n < 10 then [digitChar n]
    else decRenderAux f (n / 10) ++ [digitChar (n % 10)]

/-- Decimal rendering of a natural number, as JS string interpolation
of a nonnegative integer produces it. -/
def decRender (n : Nat) : List Char :=
  decRenderAux (n + 1) n

/-- Decimal valuation of a digit string (left inverse of
`decRender`). -/
def decVal (l : List Char) : Nat :=
  l.foldl (fun a c => 10 * a + (c.toNat - 48)) 0

/-! ## Error classifier (`src/unnamed/part_001`) -/

/-- Right word boundary (regex `\b` read at the position after a match):
holds at end of text or when the next character is not a word
character. -/
def wbAfter : List Char → Bool
  | [] => true
  | c :: _ => !(isWordChar c)

/-- Left word boundary: holds at the start of the text or when the
previous character is not a word character. -/
def wbBefore : Option Char → Bool
  | none => true
  | some c => !(isWordChar c)

/-- Scan every position of the text, tracking the previous character,
and test the matcher at each position that sits on a left word
boundary. -/
def scanWB (f : List Char → Bool) : Option Char → List Char → Bool
  | prev, [] => wbBefore prev && f []
  | prev, c :: t => (wbBefore prev && f (c :: t)) || scanWB f (some c) t

/-- The two ways an optional leading quote (regex `["']?`) can be
consumed at this position. -/
def afterOptQuote (l : List Char) : List (List Char) :=
  match l with
  | c :: t => if c = dquote || c = squote then [c :: t, t] else [c :: t]
  | [] => [[]]

/-- Embeds the rate-limit regex `/rate[_ ]limit|too many requests|429/i`
(an unanchored alternation of three literals, the first with a
one-character class). -/
def reRateLimit (raw : List Char) : Bool :=
  containsCI "rate_limit".data raw || containsCI "rate limit".data raw ||
    containsCI "too many requests".data raw || containsCI "429".data raw

/-- Position matcher for the second alternative of the overloaded
regex: `"type"\s*:\s*"overloaded_error"`. -/
def typeOverloadedAt (l : List Char) : Bool :=
  match litCIAt "\"type\"".data l with
  | some r1 =>
    match skipWs r1 with
    | c :: r2 =>
      if c = ':' then (litCIAt "\"overloaded_error\"".data (skipWs r2)).isSome
      else false
    | [] => false
  | none => false

/-- Embeds `/overloaded_error|"type"\s*:\s*"overloaded_error"/i`. -/
def reOverloaded (raw : List Char) : Bool :=
  containsCI "overloaded_error".data raw || anySuffix typeOverloadedAt raw

/-- Position matcher for the billing key/value regex
`["']?(?:status|code)["']?\s*[:=]\s*402\b` at one start position. -/
def billingKVAt (l : List Char) : Bool :=
  (afterOptQuote l).any fun l1 =>
    ((litCIAt "status".data l1).toList ++ (litCIAt "code".data l1).toList).any fun l2 =>
      (afterOptQuote l2).any fun l3 =>
        match skipWs l3 with
        | c :: l4 =>
          if c = ':' || c = '=' then
            match litAt "402".data (skipWs l4) with
            | some l5 => wbAfter l5
            | none => false
          else false
        | [] => false

/-- Embeds `/["']?(?:status|code)["']?\s*[:=]\s*402\b/i`. -/
def reBilling1 (raw : List Char) : Bool :=
  anySuffix billingKVAt raw

/-- Position matcher for `http\s*402\b` (after the left boundary has
been checked by the scanner). -/
def httpKVAt (l : List Char) : Bool :=
  match litCIAt "http".data l with
  | some r =>
    match litAt "402".data (skipWs r) with
    | some r2 => wbAfter r2
    | none => false
  | none => false

/-- Embeds `/\bhttp\s*402\b/i`. -/
def reBilling2 (raw : List Char) : Bool :=
  scanWB httpKVAt none raw

/-- Matcher for a word-bounded numeric literal at one position. -/
def numWBAt (pat : List Char) (l : List Char) : Bool :=
  match litAt pat l with
  | some r => wbAfter r
  | none => false

/-- Embeds `/\b401\b/`. -/
def re401 (raw : List Char) : Bool :=
  scanWB (numWBAt "401".data) none raw

/-- Embeds `/\b403\b/`. -/
def re403 (raw : List Char) : Bool :=
  scanWB (numWBAt "403".data) none raw

/-- The three fillers of the optional gaps in
`/invalid[_ ]?api[_ ]?key/i`. -/
def authGaps : List (List Char) := [[], ['_'], [' ']]

/-- Embeds `/invalid[_ ]?api[_ ]?key/i` by expanding the two optional
one-character classes. -/
def reAuthKey (raw : List Char) : Bool :=
  authGaps.any fun g1 => authGaps.any fun g2 =>
    containsCI ("invalid".data ++ g1 ++ "api".data ++ g2 ++ "key".data) raw

/-- Source `isRateLimitError`: `matchesPatterns` over
`ERROR_PATTERNS.rateLimit` (regex alternatives test the raw text, plain
string patterns are `includes` over the lowercased text). -/
def isRateLimitError (raw : Option String) : Bool :=
  match raw with
  | none => false
  | some s =>
    if s.data = [] then false else
    let r := s.data
    let low := lowerL r
    reRateLimit r ||
      containsSub "model_cooldown".data low ||
      containsSub "cooling down".data low ||
      containsSub "exceeded your current quota".data low ||
      containsSub "resource has been exhausted".data low ||
      containsSub "quota exceeded".data low ||
      containsSub "resource_exhausted".data low ||
      containsSub "usage limit".data low ||
      containsSub "tpm".data low ||
      containsSub "tokens per minute".data low

/-- Source `isOverloadedError` over `ERROR_PATTERNS.overloaded`. -/
def isOverloadedError (raw : Option String) : Bool :=
  match raw with
  | none => false
  | some s =>
    if s.data = [] then false else
    let r := s.data
    let low := lowerL r
    reOverloaded r ||
      containsSub "overloaded".data low ||
      containsSub "service unavailable".data low ||
      containsSub "high demand".data low

/-- Source `isTimeoutError` over `ERROR_PATTERNS.timeout`. -/
def isTimeoutError (raw : Option String) : Bool :=
  match raw with
  | none => false
  | some s =>
    if s.data = [] then false else
    let low := lowerL s.data
    containsSub "timeout".data low ||
      containsSub "timed out".data low ||
      containsSub "deadline exceeded".data low ||
      containsSub "context deadline exceeded".data low

/-- Source `isBillingError` over `ERROR_PATTERNS.billing`. -/
def isBillingError (raw : Option String) : Bool :=
  match raw with
  | none => false
  | some s =>
    if s.data = [] then false else
    let r := s.data
    let low := lowerL r
    reBilling1 r || reBilling2 r ||
      containsSub "payment required".data low ||
      containsSub "insufficient credits".data low ||
      containsSub "credit balance".data low ||
      containsSub "insufficient balance".data low

/-- Source `isAuthError` over `ERROR_PATTERNS.auth`. -/
def isAuthError (raw : Option String) : Bool :=
  match raw with
  | none => false
  | some s =>
    if s.data = [] then false else
    let r := s.data
    let low := lowerL r
    reAuthKey r ||
      containsSub "incorrect api key".data low ||
      containsSub "invalid token".data low ||
      containsSub "authentication".data low ||
      containsSub "unauthorized".data low ||
      containsSub "forbidden".data low ||
      containsSub "access denied".data low ||
      re401 r || re403 r ||
      containsSub "no api key found".data low

/-- The `CHINESE_CONTEXT_OVERFLOW` literal list; these are matched with
`includes` against the raw (not lowercased) text. -/
def chineseContextOverflow : List String :=
  ["上下文过长", "上下文超出", "超出最大上下文"]

/-- Source `isContextOverflowError`: the `tpm`/`tokens per minute` guard
excludes the message, then the pattern table, the non-Latin variants
and the compound `includes` conditions are tried in order. -/
def isContextOverflowError (raw : Option String) : Bool :=
  match raw with
  | none => false
  | some s =>
    if s.data = [] then false else
    let r := s.data
    let low := lowerL r
    if containsSub "tpm".data low || containsSub "tokens per minute".data low then false
    else if containsSub "context length exceeded".data low ||
        containsSub "maximum context length".data low ||
        containsSub "this model's maximum context length".data low ||
        containsSub "prompt is too long".data low ||
        containsSub "request_too_large".data low ||
        containsSub "exceeds model context window".data low ||
        containsSub "context overflow".data low ||
        containsSub "exceed context limit".data low ||
        containsSub "model token limit".data low ||
        containsSub "your request exceeded model token limit".data low then true
    else if chineseContextOverflow.any (fun m => containsSub m.data r) then true
    else if containsSub "request size exceeds".data low && containsSub "context".data low then true
    else if containsSub "max_tokens".data low && containsSub "exceed".data low &&
        containsSub "context".data low then true
    else if containsSub "input length".data low && containsSub "exceed".data low &&
        containsSub "context".data low then true
    else if containsSub "413".data low && containsSub "too large".data low then true
    else false

/-- The error taxonomy (`ErrorType` in the source). -/
inductive ErrorType where
  | context_overflow
  | rate_limit
  | billing
  | auth
  | timeout
  | overloaded
  | unknown
deriving DecidableEq, BEq, Repr

/-- Source `classifyError`: falsy input (absent or empty) is `unknown`,
otherwise the category testers are consulted in the fixed order. -/
def classifyError (raw : Option String) : ErrorType :=
  match raw with
  | none => .unknown
  | some s =>
    if s.data = [] then .unknown
    else if isContextOverflowError (some s) then .context_overflow
    else if isRateLimitError (some s) then .rate_limit
    else if isBillingError (some s) then .billing
    else if isAuthError (some s) then .auth
    else if isTimeoutError (some s) then .timeout
    else if isOverloadedError (some s) then .overloaded
    else .unknown

/-- Source `isNonRetryableError`. -/
def isNonRetryableError (raw : Option String) : Bool :=
  let t := classifyError raw
  t == .context_overflow || t == .billing || t == .auth

/-- The spec's `isRetryable` is the negation of the source's
`isNonRetryableError`. -/
def isRetryable (raw : Option String) : Bool :=
  !isNonRetryableError raw

/-! ## JSON values and `JSON.parse`

`parseApiErrorInfo` and the remote passthrough both run `JSON.parse` on
text.  The embedding below implements the JSON grammar executably.
Numbers are kept as their lexeme (no caller of the parser in this
repository inspects a numeric value, only string-typed fields), and a
`\u` escape is mapped through `Char.ofNat` (surrogate-pair combination
is not modelled; no claim exercises it). -/

inductive Jv where
  | null
  | bool (b : Bool)
  | num (lexeme : List Char)
  | str (s : List Char)
  | arr (xs : List Jv)
  | obj (fs : List (List Char × Jv))
deriving BEq, Repr

/-- JSON whitespace (space, tab, line feed, carriage return). -/
def isJsonWs (c : Char) : Bool :=
  c = ' ' || c = '\t' || c = '\n' || c = '\r'

/-- Drop leading JSON whitespace. -/
def skipJWs (l : List Char) : List Char :=
  l.dropWhile isJsonWs

/-- Hexadecimal digit value. -/
def hexVal (c : Char) : Option Nat :=
  if c.isDigit then some (c.toNat - 48)
  else if 'a' ≤ c && c ≤ 'f' then some (c.toNat - 87)
  else if 'A' ≤ c && c ≤ 'F' then some (c.toNat - 55)
  else none

/-- Translation of a single-character JSON string escape. -/
def escChar (e : Char) : Option Char :=
  if e = dquote then some dquote
  else if e = '\\' then some '\\'
  else if e = '/' then some '/'
  else if e = 'b' then some (Char.ofNat 8)
  else if e = 'f' then some (Char.ofNat 12)
  else if e = 'n' then some '\n'
  else if e = 'r' then some '\r'
  else if e = 't' then some '\t'
  else none

/-- Parse the body of a JSON string (the opening quote has been
consumed); returns the contents and the rest after the closing
quote.  Unescaped control characters are rejected, as `JSON.parse`
rejects them. -/
def pStr : List Char → Option (List Char × List Char)
  | [] => none
  | c :: t =>
    if c = dquote then some ([], t)
    else if c = '\\' then
      match t with
      | [] => none
      | e :: t2 =>
        if e = 'u' then
          match t2 with
          | h1 :: h2 :: h3 :: h4 :: t3 =>
            match hexVal h1, hexVal h2, hexVal h3, hexVal h4 with
            | some a, some b, some c2, some d =>
              match pStr t3 with
              | some (s, r) => some (Char.ofNat (((a * 16 + b) * 16 + c2) * 16 + d) :: s, r)
              | none => none
            | _, _, _, _ => none
          | _ => none
        else
          match escChar e with
          | some ec =>
            match pStr t2 with
            | some (s, r) => some (ec :: s, r)
            | none => none
          | none => none
    else if c.toNat < 32 then none
    else
      match pStr t with
      | some (s, r) => some (c :: s, r)
      | none => none

/-- Parse an optional JSON fraction part, appending its lexeme. -/
def pFrac (acc l : List Char) : Option (List Char × List Char) :=
  match l with
  | c :: t =>
    if c = '.' then
      let ds := t.takeWhile Char.isDigit
      let r := t.dropWhile Char.isDigit
      match ds with
      | [] => none
      | _ :: _ => some (acc ++ [c] ++ ds, r)
    else some (acc, l)
  | [] => some (acc, [])

/-- Parse an optional JSON exponent part, appending its lexeme. -/
def pExp (acc l : List Char) : Option (List Char × List Char) :=
  match l with
  | c :: t =>
    if c = 'e' || c = 'E' then
      let (sgn, t2) :=
        match t with
        | s :: t2 => if s = '+' || s = '-' then ([s], t2) else ([], t)
        | [] => ([], [])
      let ds := t2.takeWhile Char.isDigit
      let r := t2.dropWhile Char.isDigit
      match ds with
      | [] => none
      | _ :: _ => some (acc ++ [c] ++ sgn ++ ds, r)
    else some (acc, l)
  | [] => some (acc, [])

/-- Parse a JSON number (grammar
minus? (zero | nonzero digits) frac? exp?), keeping the lexeme. -/
def pNum (l : List Char) : Option (Jv × List Char) :=
  let (minus, l1) :=
    match l with
    | c :: t => if c = '-' then (([c] : List Char), t) else ([], l)
    | [] => ([], [])
  match l1 with
  | c :: t =>
    if c = '0' then
      match pFrac (minus ++ [c]) t with
      | some (a2, r2) =>
        match pExp a2 r2 with
        | some (a3, r3) => some (.num a3, r3)
        | none => none
      | none => none
    else if c.isDigit then
      let ds := l1.takeWhile Char.isDigit
      let r := l1.dropWhile Char.isDigit
      match pFrac (minus ++ ds) r with
      | some (a2, r2) =>
        match pExp a2 r2 with
        | some (a3, r3) => some (.num a3, r3)
        | none => none
      | none => none
    else none
  | [] => none

/-- Work items of the fuelled JSON parser: a value, or the interior of
an object or array with the members accumulated so far. -/
inductive PJob where
  | val (l : List Char)
  | objStart (acc : List (List Char × Jv)) (l : List Char)
  | objMemb (acc : List (List Char × Jv)) (l : List Char)
  | objMore (acc : List (List Char × Jv)) (l : List Char)
  | arrStart (acc : List Jv) (l : List Char)
  | arrElem (acc : List Jv) (l : List Char)
  | arrMore (acc : List Jv) (l : List Char)

/-- The recursive JSON parser.  Fuel decreases on every recursive call;
`jsonParse` supplies enough fuel for any input, so the fuel never runs
out on real text. -/
def pRun : Nat → PJob → Option (Jv × List Char)
  | 0, _ => none
  | f + 1, .val l =>
    match skipJWs l with
    | [] => none
    | c :: t =>
      if c = dquote then
        match pStr t with
        | some (s, r) => some (.str s, r)
        | none => none
      else if c = lcurly then pRun f (.objStart [] t)
      else if c = '[' then pRun f (.arrStart [] t)
      else
        match litAt "true".data (c :: t) with
        | some r => some (.bool true, r)
        | none =>
          match litAt "false".data (c :: t) with
          | some r => some (.bool false, r)
          | none =>
            match litAt "null".data (c :: t) with
            | some r => some (.null, r)
            | none => pNum (c :: t)
  | f + 1, .objStart acc l =>
    match skipJWs l with
    | c :: t => if c = rcurly then some (.obj acc, t) else pRun f (.objMemb acc (c :: t))
    | [] => none
  | f + 1, .objMemb acc l =>
    match skipJWs l with
    | c :: t =>
      if c = dquote then
        match pStr t with
        | some (k, r) =>
          match skipJWs r with
          | c2 :: r2 =>
            if c2 = ':' then
              match pRun f (.val r2) with
              | some (v, r3) => pRun f (.objMore (acc ++ [(k, v)]) r3)
              | none => none
            else none
          | [] => none
        | none => none
      else none
    | [] => none
  | f + 1, .objMore acc l =>
    match skipJWs l with
    | c :: t =>
      if c = rcurly then some (.obj acc, t)
      else if c = ',' then pRun f (.objMemb acc t)
      else none
    | [] => none
  | f + 1, .arrStart acc l =>
    match skipJWs l with
    | c :: t => if c = ']' then some (.arr acc, t) else pRun f (.arrElem acc (c :: t))
    | [] => none
  | f + 1, .arrElem acc l =>
    match pRun f (.val l) with
    | some (v, r) => pRun f (.arrMore (acc ++ [v]) r)
    | none => none
  | f + 1, .arrMore acc l =>
    match skipJWs l with
    | c :: t =>
      if c = ']' then some (.arr acc, t)
      else if c = ',' then pRun f (.arrElem acc t)
      else none
    | [] => none

/-- `JSON.parse`: parse one value and require only whitespace after
it. -/
def jsonParse (l : List Char) : Option Jv :=
  match pRun (4 * l.length + 8) (.val l) with
  | some (v, rest) => if skipJWs rest = [] then some v else none
  | none => none

/-- Property lookup on a parsed JSON object.  With duplicate keys the
later member wins, as in a JavaScript object literal. -/
def jGet (fs : List (List Char × Jv)) (k : List Char) : Option Jv :=
  match fs with
  | [] => none
  | (k2, v) :: rest =>
    match jGet rest k with
    | some v2 => some v2
    | none => if k2 = k then some v else none

/-- A property that must hold a string (`typeof x === 'string'`). -/
def jGetStr (fs : List (List Char × Jv)) (k : List Char) : Option String :=
  match jGet fs k with
  | some (.str s) => some (String.mk s)
  | _ => none

/-! ## `parseApiErrorInfo` (`src/unnamed/part_001`) -/

/-- The structured detail extracted from an upstream error
(`ApiErrorInfo` in the source). -/
structure ApiErrorInfo where
  httpCode : Option Nat
  type : Option String
  code : Option String
  message : Option String
  requestId : Option String
deriving DecidableEq, Repr

/-- Embeds the anchored replace of
`ERROR_PAYLOAD_PREFIX_RE = /^\[[\w\s]+\]\s*|^(?:error|api\s*error)[:\s-]+/i`:
strip a leading bracketed tag plus trailing whitespace, or a leading
`error` / `api error` keyword plus at least one separator; otherwise
leave the text unchanged. -/
def stripErrPrefix (l : List Char) : List Char :=
  match l with
  | [] => []
  | c :: t =>
    if c = '[' then
      let run := t.takeWhile (fun x => isWordChar x || isJsWs x)
      let rest := t.dropWhile (fun x => isWordChar x || isJsWs x)
      match run, rest with
      | _ :: _, r :: r2 => if r = ']' then skipWs r2 else c :: t
      | _, _ => c :: t
    else
      let afterKw :=
        match litCIAt "error".data (c :: t) with
        | some r => some r
        | none =>
          match litCIAt "api".data (c :: t) with
          | some r =>
            match litCIAt "error".data (skipWs r) with
            | some r2 => some r2
            | none => none
          | none => none
      match afterKw with
      | some r =>
        let seps := r.takeWhile (fun x => x = ':' || isJsWs x || x = '-')
        match seps with
        | [] => c :: t
        | _ :: _ => r.dropWhile (fun x => x = ':' || isJsWs x || x = '-')
      | none => c :: t

/-- Embeds `HTTP_STATUS_PREFIX_RE = /^(\d{3})\s+(.+)$/s`: three digits,
at least one whitespace character, and a non-empty remainder (when the
remainder after the maximal whitespace run is empty, the greedy `\s+`
backs off one character so `(.+)` can still match). -/
def httpPrefixSplit (l : List Char) : Option (Nat × List Char) :=
  match l with
  | d1 :: d2 :: d3 :: rest =>
    if d1.isDigit && d2.isDigit && d3.isDigit then
      let ws := rest.takeWhile isJsWs
      let r := rest.dropWhile isJsWs
      let code := ((d1.toNat - 48) * 10 + (d2.toNat - 48)) * 10 + (d3.toNat - 48)
      match ws with
      | [] => none
      | _ :: _ =>
        match r with
        | _ :: _ => some (code, r)
        | [] =>
          match ws.reverse with
          | w :: _ :: _ => some (code, [w])
          | _ => none
    else none
  | _ => none

/-- The prefix-stripping and HTTP-code-stripping pipeline of
`parseApiErrorInfo`: the optional three-digit code and the remainder
that is offered to `JSON.parse`. -/
def apiDetailRemainder (s : String) : Option Nat × List Char :=
  let t1 := trimL (stripErrPrefix (trimL s.data))
  match httpPrefixSplit t1 with
  | some (c, r) => (some c, trimL r)
  | none => (none, t1)

/-- The `request_id`/`requestId` extraction shared by the shapes. -/
def jReqId (fs : List (List Char × Jv)) : Option String :=
  match jGetStr fs "request_id".data with
  | some r => some r
  | none => jGetStr fs "requestId".data

/-- Extraction of the known shapes from the parsed JSON value: an
`error` object wins; otherwise a flat object with a string `message`;
anything else yields nothing.  The source's second shape
(`type:"error"` with an `error` object) is subsumed by the first and
is unreachable, so only its fall-through is visible here. -/
def apiShapes (httpCode : Option Nat) : Jv → Option ApiErrorInfo
  | .obj fs =>
    match jGet fs "error".data with
    | some (.obj efs) =>
      some { httpCode := httpCode, type := jGetStr efs "type".data,
             code := jGetStr efs "code".data,
             message := jGetStr efs "message".data,
             requestId := jReqId fs }
    | _ =>
      match jGetStr fs "message".data with
      | some m =>
        some { httpCode := httpCode, type := jGetStr fs "type".data,
               code := jGetStr fs "code".data, message := some m,
               requestId := jReqId fs }
      | none => none
  | _ => none

/-- Source `parseApiErrorInfo`: trim, strip the error-payload prefix,
strip an optional three-digit HTTP status prefix, require a braced
remainder, `JSON.parse` it and extract one of the known shapes. -/
def parseApiErrorInfo (raw : Option String) : Option ApiErrorInfo :=
  match raw with
  | none => none
  | some s =>
    if s.data = [] then none
    else if trimL s.data = [] then none
    else
      match (apiDetailRemainder s).2 with
      | [] => none
      | c :: _ =>
        if c = lcurly then
          match (apiDetailRemainder s).2.getLast? with
          | some d =>
            if d = rcurly then
              match jsonParse (apiDetailRemainder s).2 with
              | none => none
              | some v => apiShapes (apiDetailRemainder s).1 v
            else none
          | none => none
        else none

/-! ## SSE line parser (`streamFromLangSmith`, `src/web/app/api/chat/route.ts`)

The reading loop decodes each network chunk, appends it to a text
buffer, splits the buffer on line feeds, holds the last (possibly
incomplete) piece back for the next chunk, and on end of stream
processes everything still buffered.  Chunks are modelled here as
already-decoded character lists of arbitrary granularity: the stateful
`TextDecoder` guarantees that byte chunking only ever splits the text
at (arbitrary) character positions, which is exactly the granularity
the model quantifies over.  The final read of a
`ReadableStreamDefaultReader` carries no value, so the done iteration
only flushes the buffer. -/

/-- One parsed server-sent pair: the event name in effect (absent when
no `event:` line preceded) and the trimmed payload of a `data:`
line. -/
structure SseState where
  currentEvent : Option (List Char)
  pairs : List (Option (List Char) × List Char)
deriving DecidableEq, Repr

/-- Process one complete line, as the body of the `for` loop does:
trim the end, reset the current event name on a blank line, set it on
an `event:` line, yield a pair on a `data:` line with non-empty
payload, ignore everything else. -/
def processLine (st : SseState) (rawLine : List Char) : SseState :=
  let line := trimEndL rawLine
  match line with
  | [] => { st with currentEvent := none }
  | _ :: _ =>
    match litAt "event:".data line with
    | some r => { st with currentEvent := some (trimL r) }
    | none =>
      match litAt "data:".data line with
      | none => st
      | some r =>
        let dataText := trimL r
        match dataText with
        | [] => st
        | _ :: _ => { st with pairs := st.pairs ++ [(st.currentEvent, dataText)] }

/-- Process a list of complete lines in order. -/
def processLines (st : SseState) (ls : List (List Char)) : SseState :=
  ls.foldl processLine st

/-- Split a text on line feeds into (complete lines, remainder after
the last line feed); `buffer.split('\n')` is `complete ++ [remainder]`
and `lines.pop()` removes the remainder. -/
def splitCR : List Char → List (List Char) × List Char
  | [] => ([], [])
  | c :: rest =>
    let p := splitCR rest
    if c = '\n' then ([] :: p.1, p.2)
    else
      match p.1 with
      | [] => ([], c :: p.2)
      | l :: ls => ((c :: l) :: ls, p.2)

/-- The per-connection parser state: the held-back buffer plus the
line-parser state. -/
structure ChunkState where
  buffer : List Char
  st : SseState
deriving DecidableEq, Repr

/-- The initial line-parser state. -/
def initSse : SseState := { currentEvent := none, pairs := [] }

/-- The initial chunked state. -/
def initChunk : ChunkState := { buffer := [], st := initSse }

/-- One non-final read: append the chunk to the buffer, process the
complete lines, hold the last piece back. -/
def feedChunk (cs : ChunkState) (chunk : List Char) : ChunkState :=
  let p := splitCR (cs.buffer ++ chunk)
  { buffer := p.2, st := processLines cs.st p.1 }

/-- The final (done) read: the whole buffer is split and every piece,
including the unterminated last one, is processed. -/
def flushEnd (cs : ChunkState) : SseState :=
  let p := splitCR cs.buffer
  processLines cs.st (p.1 ++ [p.2])

/-- The chunked parser run: feed every chunk, then flush. -/
def sseRun (chunks : List (List Char)) : SseState :=
  flushEnd (chunks.foldl feedChunk initChunk)

/-- Reference run: all the text at once. -/
def sseOneShot (s : List Char) : SseState :=
  let p := splitCR s
  processLines initSse (p.1 ++ [p.2])

/-! ## Streaming bridge (`POST`/`run`, `src/web/app/api/chat/route.ts`) -/

/-- The closed agent-level event union the local loop consumes
(`agent.run` yields these; the `default` switch branch ignores any
other shape, and the embedding's union is closed). -/
inductive AgentEvent where
  | tool_start (tool : String) (args : String)
  | tool_end (tool : String) (result : String)
  | tool_error (tool : String) (error : String)
  | done (answer : String)
deriving DecidableEq, Repr

/-- The outbound protocol events (the `send({type: ...})` payload
shapes).  A `text-delta` carries whatever value the remote extractor
produced, hence a JSON value. -/
inductive OutEvent where
  | start (messageId : String)
  | startStep
  | toolInput (toolCallId : String) (toolName : String) (input : String)
  | toolOutput (toolCallId : String) (output : String)
  | textStart (id : String)
  | textDelta (id : String) (delta : Jv)
  | textEnd (id : String)
  | finishStep
  | finish
  | error (errorText : String)
deriving BEq, Repr

/-- The tool id the route mints: the template literal
`tool-${++toolCounter}`. -/
def mkToolId (n : Nat) : String :=
  String.mk ("tool-".data ++ decRender n)

/-- The correlator state inlined in `run`: the `toolCounter` and the
`toolCalls` array of `{tool, id}` records. -/
structure CorrState where
  counter : Nat
  calls : List (String × String)
deriving DecidableEq, Repr

/-- `toolCalls.findIndex` plus `splice`: remove the first record whose
tool name matches and return its id together with the remaining
list. -/
def findRemove : List (String × String) → String → Option (String × List (String × String))
  | [], _ => none
  | e :: rest, name =>
    if e.1 = name then some (e.2, rest)
    else
      match findRemove rest name with
      | some (id2, rest2) => some (id2, e :: rest2)
      | none => none

/-- The `tool_start` bookkeeping: mint `tool-${++toolCounter}`, push
the record, return the id. -/
def assign (s : CorrState) (name : String) : CorrState × String :=
  let id := mkToolId (s.counter + 1)
  ({ counter := s.counter + 1, calls := s.calls ++ [(name, id)] }, id)

/-- The `tool_end`/`tool_error` bookkeeping: `findIndex` on the tool
name; on a hit, `splice` the record out and use its id; on a miss,
mint a fresh synthetic id without recording it. -/
def resolve (s : CorrState) (name : String) : CorrState × String :=
  match findRemove s.calls name with
  | some (id, rest) => ({ s with calls := rest }, id)
  | none => ({ s with counter := s.counter + 1 }, mkToolId (s.counter + 1))

/-- The loop state of `run`: correlator, `finalAnswer`, and the events
sent so far. -/
structure LoopState where
  corr : CorrState
  finalAnswer : String
  out : List OutEvent

/-- One iteration of the `for await` switch. -/
def stepEvent (textId : String) (s : LoopState) (e : AgentEvent) : LoopState :=
  match e with
  | .tool_start tool args =>
    let p := assign s.corr tool
    { s with corr := p.1, out := s.out ++ [.toolInput p.2 tool args] }
  | .tool_end tool result =>
    let p := resolve s.corr tool
    { s with corr := p.1, out := s.out ++ [.toolOutput p.2 result] }
  | .tool_error tool msg =>
    let p := resolve s.corr tool
    { s with corr := p.1, out := s.out ++ [.toolOutput p.2 ("Error: " ++ msg)] }
  | .done answer =>
    { s with finalAnswer := answer,
             out := s.out ++ [.textStart textId, .textDelta textId (.str answer.data),
                              .textEnd textId, .finishStep, .finish] }

/-- The initial loop state (counter `0`, no records, empty answer). -/
def initLoop : LoopState :=
  { corr := { counter := 0, calls := [] }, finalAnswer := "", out := [] }

/-- The whole local agent loop over a given event sequence. -/
def runAgentLoop (textId : String) (es : List AgentEvent) : LoopState :=
  es.foldl (stepEvent textId) initLoop

/-- The result of one turn: the outbound event sequence and whether the
controller was closed (the `finally` always closes, so this is always
`true`; it is carried to state the clean-close facts explicitly). -/
structure TurnResult where
  events : List OutEvent
  closed : Bool

/-- The local transport path of `run`: emit `start`/`start-step`, drive
the agent loop over `es`, then persist.  `iterFail = some m` models the
agent iteration (or the history load preceding it) throwing with
message `m` after the listed events were yielded; `appendFail = some m`
models `saveAnswer`/`appendSessionMessage` rejecting with message `m`
(the persistence block runs only when `finalAnswer` is non-empty).
Either throw reaches the `catch`, which sends one `error` event; the
`finally` closes the controller on every path. -/
def runLocal (messageId textId : String) (es : List AgentEvent) (iterFail : Option String)
    (appendFail : Option String) : TurnResult :=
  let s := runAgentLoop textId es
  let tail : List OutEvent :=
    match iterFail with
    | some m => [.error m]
    | none =>
      if s.finalAnswer = "" then []
      else
        match appendFail with
        | some m => [.error m]
        | none => []
  { events := [.start messageId, .startStep] ++ s.out ++ tail, closed := true }

/-! ## Remote passthrough (`streamFromLangSmith`) -/

/-- `Array.isArray(payload) ? payload[0] : payload?.[0]`: first array
element, or the `"0"` property of an object, or the first character of
a string; `undefined` otherwise. -/
def jIndex0 (v : Jv) : Option Jv :=
  match v with
  | .arr xs => xs.head?
  | .obj fs => jGet fs "0".data
  | .str s =>
    match s with
    | [] => none
    | c :: _ => some (.str [c])
  | _ => none

/-- `x?.k`: property access behind optional chaining; non-objects have
no own properties here. -/
def jProp (v : Option Jv) (k : List Char) : Option Jv :=
  match v with
  | some (.obj fs) => jGet fs k
  | _ => none

/-- Nullish coalescing treats a present-but-`null` value like
`undefined`. -/
def coalesce (v : Option Jv) : Option Jv :=
  match v with
  | some .null => none
  | x => x

/-- Truthiness of a number lexeme: zero (in any spelling) is falsy. -/
def numLexTruthy (lex : List Char) : Bool :=
  (lex.takeWhile (fun c => !(c = 'e' || c = 'E'))).any (fun c => c.isDigit && !(c = '0'))

/-- JavaScript truthiness of a JSON value (`if (delta)`). -/
def jvTruthy (v : Jv) : Bool :=
  match v with
  | .null => false
  | .bool b => b
  | .num lex => numLexTruthy lex
  | .str s => !s.isEmpty
  | .arr _ => true
  | .obj _ => true

/-- `messageChunk?.content ?? messageChunk?.text ?? ''`. -/
def deltaOf (chunk : Option Jv) : Jv :=
  match coalesce (jProp chunk "content".data) with
  | some v => v
  | none =>
    match coalesce (jProp chunk "text".data) with
    | some v => v
    | none => .str []

/-- The delta-emission state of the remote loop: the `started` flag and
the events sent so far. -/
structure RemoteState where
  started : Bool
  out : List OutEvent

/-- The answer-event branch of the remote loop, applied to an already
parsed payload: pick the message chunk, extract the delta, and when it
is truthy emit `text-start` lazily followed by the `text-delta`. -/
def remoteHandlePayload (textId : String) (st : RemoteState) (payload : Jv) : RemoteState :=
  let delta := deltaOf (jIndex0 payload)
  if jvTruthy delta then
    let st1 :=
      if st.started then st
      else { started := true, out := st.out ++ [OutEvent.textStart textId] }
    { st1 with out := st1.out ++ [OutEvent.textDelta textId delta] }
  else st

/-- Processing of one parsed SSE pair: `JSON.parse` the payload
(parse errors are swallowed), then handle it when the event name is
`messages` or `messages/partial`. -/
def remoteStep (textId : String) (st : RemoteState) (pair : Option (List Char) × List Char) :
    RemoteState :=
  match jsonParse pair.2 with
  | none => st
  | some payload =>
    if pair.1 = some "messages".data ∨ pair.1 = some "messages/partial".data then
      remoteHandlePayload textId st payload
    else st

/-- Fold the delta logic over the parsed pairs in stream order. -/
def remoteFromPairs (textId : String) (pairs : List (Option (List Char) × List Char)) :
    RemoteState :=
  pairs.foldl (remoteStep textId) { started := false, out := [] }

/-- The three observable outcomes of the upstream `fetch`. -/
inductive RemoteOutcome where
  | fetchThrow (msg : String)
  | notOk (bodyText : String)
  | ok (chunks : List (List Char))

/-- The message of the `ReferenceError` raised by the stray
`controller.close()` at the end of `streamFromLangSmith`:
`controller` is not a name in scope in that function, so after
`finish` has been sent the statement throws, the `catch` in `run`
sends this text as one trailing `error` event, and the `finally`
closes the stream. -/
def ctrlNotDefinedMsg : String := "controller is not defined"

/-- The remote transport path of `run`: a `fetch` rejection reaches the
`catch`; a non-OK response sends one `error` and returns; a successful
response streams deltas, closes the text block if it was opened, sends
`finish-step` and `finish`, and then trips over the out-of-scope
`controller` reference. -/
def runRemote (messageId textId : String) (oc : RemoteOutcome) : TurnResult :=
  match oc with
  | .fetchThrow m => { events := [.start messageId, .startStep, .error m], closed := true }
  | .notOk t => { events := [.start messageId, .startStep, .error t], closed := true }
  | .ok chunks =>
    let rs := remoteFromPairs textId (sseRun chunks).pairs
    let ends : List OutEvent :=
      (if rs.started then [.textEnd textId] else []) ++
        [.finishStep, .finish, .error ctrlNotDefinedMsg]
    { events := [.start messageId, .startStep] ++ rs.out ++ ends, closed := true }

/-! ## Event-kind level view (for the bracketing claim) -/

/-- The event-type tags of the outbound protocol. -/
inductive EKind where
  | start
  | startStep
  | toolInput
  | toolOutput
  | textStart
  | textDelta
  | textEnd
  | finishStep
  | finish
  | error
deriving DecidableEq, Repr

/-- The tag of an outbound event. -/
def kindOf : OutEvent → EKind
  | .start _ => .start
  | .startStep => .startStep
  | .toolInput _ _ _ => .toolInput
  | .toolOutput _ _ => .toolOutput
  | .textStart _ => .textStart
  | .textDelta _ _ => .textDelta
  | .textEnd _ => .textEnd
  | .finishStep => .finishStep
  | .finish => .finish
  | .error _ => .error

/-- The tag sequence of an event sequence. -/
def kindsOf (l : List OutEvent) : List EKind :=
  l.map kindOf

/-- The bracketing property of one turn's outbound sequence: it starts
with exactly one `start` immediately followed by exactly one
`start-step`, and it either ends with exactly one `finish-step`
followed by exactly one `finish`, or ends with exactly one `error`
after which nothing follows. -/
def goodKinds (l : List EKind) : Prop :=
  (∃ rest, l = .start :: .startStep :: rest ∧
    rest.count .start = 0 ∧ rest.count .startStep = 0) ∧
  ((l.count .finishStep = 1 ∧ l.count .finish = 1 ∧ ∃ p, l = p ++ [.finishStep, .finish]) ∨
   (l.count .error = 1 ∧ ∃ p, l = p ++ [.error]))

/-- The kind contribution of one agent event under `stepEvent`. -/
def kindsForAgent : AgentEvent → List EKind
  | .tool_start _ _ => [.toolInput]
  | .tool_end _ _ => [.toolOutput]
  | .tool_error _ _ => [.toolOutput]
  | .done _ => [.textStart, .textDelta, .textEnd, .finishStep, .finish]

/-- Is this agent event the terminal `done`? -/
def isDoneEv : AgentEvent → Bool
  | .done _ => true
  | _ => false

/-! ## Projections used by concrete counterexamples -/

/-- The `text-delta` payloads of a sequence, rendered as strings when
they are JSON strings. -/
def deltaStrs (l : List OutEvent) : List (Option String) :=
  l.filterMap fun e =>
    match e with
    | .textDelta _ d =>
      some (match d with
            | .str s => some (String.mk s)
            | _ => none)
    | _ => none

/-- The text of the last event when it is an `error` event. -/
def lastErrText (l : List OutEvent) : Option String :=
  match l.getLast? with
  | some (.error m) => some m
  | _ => none

/-- The ids carried by `tool-input-available` events, in order. -/
def inIds (l : List OutEvent) : List String :=
  l.filterMap fun e =>
    match e with
    | .toolInput id _ _ => some id
    | _ => none

/-- The ids carried by `tool-output-available` events, in order. -/
def outIds (l : List OutEvent) : List String :=
  l.filterMap fun e =>
    match e with
    | .toolOutput id _ => some id
    | _ => none

/-- Auxiliary for `noLateInput`, over the reversed event list: every
`tool-input-available` id is absent from the outputs emitted before
it. -/
def noLateInputAux : List OutEvent → Prop
  | [] => True
  | e :: rest =>
    (match e with
     | .toolInput id _ _ => id ∉ outIds rest.reverse
     | _ => True) ∧ noLateInputAux rest

/-- No `tool-input-available` event carries an id that an earlier
`tool-output-available` event of the same turn already carried. -/
def noLateInput (l : List OutEvent) : Prop :=
  noLateInputAux l.reverse

/-- The id bound maintained by the mint counter: the id was minted by
this turn's counter while it was at most `c`. -/
def idLe (c : Nat) (id : String) : Prop :=
  ∃ n, 1 ≤ n ∧ n ≤ c ∧ id = mkToolId n

/-- Is this outbound event a `tool-input-available` event? -/
def isInEv : OutEvent → Bool
  | .toolInput _ _ _ => true
  | _ => false

/-- The concatenated kind contributions of an agent event sequence. -/
def kindsFlat : List AgentEvent → List EKind
  | [] => []
  | e :: es => kindsForAgent e ++ kindsFlat es

/-- The invariant maintained by the `run` loop over the correlator and
the emitted tool events. -/
def LoopInv (s : LoopState) : Prop :=
  (∀ p ∈ s.corr.calls, idLe s.corr.counter p.2) ∧
  (∀ id ∈ inIds s.out, idLe s.corr.counter id) ∧
  (∀ id ∈ outIds s.out, idLe s.corr.counter id) ∧
  (inIds s.out).Nodup ∧
  (outIds s.out).Nodup ∧
  (∀ p ∈ s.corr.calls, p.2 ∉ outIds s.out) ∧
  (s.corr.calls.map Prod.snd).Nodup ∧
  noLateInput s.out

/-! # Theorems -/

theorem decVal_append (a b : List Char) :
    decVal (a ++ b) = b.foldl (fun a c => 10 * a + (c.toNat - 48)) (decVal a) := by
  simp [decVal, List.foldl_append]

theorem digitChar_val (n : Nat) (h : n < 10) : (digitChar n).toNat - 48 = n := by
  interval_cases n <;> decide

theorem decVal_decRenderAux (f n : Nat) (h : n ≤ f) :
    decVal (decRenderAux (f + 1) n) = n := by
  induction f generalizing n with
  | zero =>
    interval_cases n
    decide
  | succ f ih =>
    rw [decRenderAux]
    by_cases h10 : n < 10
    · simp only [if_pos h10]
      simp [decVal, digitChar_val n h10]
    · simp only [if_neg h10]
      rw [decVal_append]
      have hle : n / 10 ≤ f := by
        have h1 : 10 ≤ n := Nat.le_of_not_lt h10
        have h2 : n / 10 < n := Nat.div_lt_self (by omega) (by omega)
        omega
      have := ih (n / 10) hle
      simp only [List.foldl_cons, List.foldl_nil, this]
      rw [digitChar_val (n % 10) (Nat.mod_lt n (by omega))]
      omega

theorem decVal_decRender (n : Nat) : decVal (decRender n) = n :=
  decVal_decRenderAux n n (Nat.le_refl n)

theorem decRender_injective : Function.Injective decRender := by
  intro a b h
  have ha := decVal_decRender a
  have hb := decVal_decRender b
  rw [h] at ha
  omega

theorem apiShapes_httpCode (hc : Option Nat) (v : Jv) (info : ApiErrorInfo)
    (h : apiShapes hc v = some info) : info.httpCode = hc := by
  cases v with
  | obj fs =>
    simp only [apiShapes] at h
    split at h
    · injection h with h2; rw [← h2]
    · split at h
      · injection h with h2; rw [← h2]
      · exact absurd h (by simp)
  | null => exact absurd h (by simp [apiShapes])
  | bool b => exact absurd h (by simp [apiShapes])
  | num lx => exact absurd h (by simp [apiShapes])
  | str st => exact absurd h (by simp [apiShapes])
  | arr xs => exact absurd h (by simp [apiShapes])

theorem mkToolId_injective : Function.Injective mkToolId := by
  intro a b h
  have hdata : "tool-".data ++ decRender a = "tool-".data ++ decRender b := by
    have h2 := congrArg String.data h
    simpa [mkToolId] using h2
  exact decRender_injective (List.append_cancel_left hdata)

theorem jGet_cons_ne (k2 k : List Char) (w : Jv) (fs : List (List Char × Jv))
    (hne : k2 ≠ k) : jGet ((k2, w) :: fs) k = jGet fs k := by
  cases h : jGet fs k <;> simp [jGet, h, hne]

theorem findRemove_none (l : List (String × String)) (name : String)
    (h : ∀ x ∈ l, x.1 ≠ name) : findRemove l name = none := by
  induction l with
  | nil => rfl
  | cons e rest ih =>
    have he : e.1 ≠ name := h e (by simp)
    have hr := ih (fun x hx => h x (by simp [hx]))
    simp [findRemove, he, hr]

theorem findRemove_append_none (l m : List (String × String)) (name : String)
    (h : ∀ x ∈ l, x.1 ≠ name) :
    findRemove (l ++ m) name = (findRemove m name).map (fun p => (p.1, l ++ p.2)) := by
  induction l with
  | nil =>
    cases hm : findRemove m name <;> simp [hm]
  | cons e rest ih =>
    have he : e.1 ≠ name := h e (by simp)
    have hr := ih (fun x hx => h x (by simp [hx]))
    cases hm : findRemove m name <;>
      simp [findRemove, he, hr, hm]

/-! ### C5 — tool-call correlator -/

/-- C5: `resolve(toolName)` removes and returns the id of the oldest
pending record whose tool name matches (FIFO per name); with no match
it returns a freshly minted synthetic id without inserting it; and
after two assigns for one name, two resolves return the two ids in
assignment order. -/
theorem correlator_C5_fifo_resolve :
    (∀ (s : CorrState) (name : String) (l1 l2 : List (String × String)) (e : String × String),
      s.calls = l1 ++ e :: l2 → (∀ x ∈ l1, x.1 ≠ name) → e.1 = name →
      resolve s name = ({ s with calls := l1 ++ l2 }, e.2)) ∧
    (∀ (s : CorrState) (name : String), (∀ x ∈ s.calls, x.1 ≠ name) →
      resolve s name = ({ s with counter := s.counter + 1 }, mkToolId (s.counter + 1))) ∧
    (∀ (s : CorrState) (name : String), (∀ x ∈ s.calls, x.1 ≠ name) →
      (resolve ((assign ((assign s name).1) name).1) name).2 = (assign s name).2 ∧
      (resolve ((resolve ((assign ((assign s name).1) name).1) name).1) name).2 =
        (assign ((assign s name).1) name).2) := by
  refine ⟨?_, ?_, ?_⟩
  · intro s name l1 l2 e hcalls h1 he
    have hfr : findRemove s.calls name = some (e.2, l1 ++ l2) := by
      rw [hcalls, findRemove_append_none l1 (e :: l2) name h1]
      simp [findRemove, he]
    simp [resolve, hfr]
  · intro s name h
    simp [resolve, findRemove_none s.calls name h]
  · intro s name h
    have hfr1 : findRemove (s.calls ++ [(name, mkToolId (s.counter + 1)),
        (name, mkToolId (s.counter + 1 + 1))]) name =
        some (mkToolId (s.counter + 1), s.calls ++ [(name, mkToolId (s.counter + 1 + 1))]) := by
      rw [findRemove_append_none s.calls _ name h]
      simp [findRemove]
    have hfr2 : findRemove (s.calls ++ [(name, mkToolId (s.counter + 1 + 1))]) name =
        some (mkToolId (s.counter + 1 + 1), s.calls ++ []) := by
      rw [findRemove_append_none s.calls _ name h]
      simp [findRemove]
    constructor
    · simp [assign, resolve, hfr1]
    · simp [assign, resolve, hfr1, hfr2]

/-- Witness for C5 at the initial correlator state and the spec's
`web_search` scenario. -/
theorem correlator_C5_fifo_resolve_witness :
    (resolve ((assign ((assign { counter := 0, calls := [] } "web_search").1)
        "web_search").1) "web_search").2 =
      (assign ({ counter := 0, calls := [] } : CorrState) "web_search").2 ∧
    (resolve ((resolve ((assign ((assign { counter := 0, calls := [] }
        "web_search").1) "web_search").1) "web_search").1) "web_search").2 =
      (assign ((assign ({ counter := 0, calls := [] } : CorrState) "web_search").1)
        "web_search").2 :=
  correlator_C5_fifo_resolve.2.2 { counter := 0, calls := [] } "web_search" (by simp)

/-! ### C6 — tpm exclusion and classification precedence -/

/-- C6: `"tpm exceeded, try again"` classifies as `rate_limit`; any
message containing `tpm` or `tokens per minute` is excluded from
context overflow; and classification consults the categories in the
fixed precedence order. -/
theorem classifier_C6_tpm_precedence :
    classifyError (some "tpm exceeded, try again") = .rate_limit ∧
    (∀ s : String,
      (containsSub "tpm".data (lowerL s.data) = true ∨
        containsSub "tokens per minute".data (lowerL s.data) = true) →
      isContextOverflowError (some s) = false) ∧
    (∀ s : String,
      classifyError (some s) =
        if s.data = [] then .unknown
        else if isContextOverflowError (some s) then .context_overflow
        else if isRateLimitError (some s) then .rate_limit
        else if isBillingError (some s) then .billing
        else if isAuthError (some s) then .auth
        else if isTimeoutError (some s) then .timeout
        else if isOverloadedError (some s) then .overloaded
        else .unknown) := by
  refine ⟨by decide, ?_, ?_⟩
  · intro s h
    have hcond : (containsSub "tpm".data (lowerL s.data) ||
        containsSub "tokens per minute".data (lowerL s.data)) = true := by
      rcases h with h | h <;> simp [h]
    by_cases he : s.data = []
    · simp [isContextOverflowError, he]
    · simp [isContextOverflowError, he, hcond]
  · intro s
    rfl

/-- Witness for C6: the exclusion applied to a message that contains
both a context-overflow pattern and the `tpm` marker. -/
theorem classifier_C6_tpm_precedence_witness :
    isContextOverflowError (some "tpm hit: maximum context length") = false :=
  classifier_C6_tpm_precedence.2.1 "tpm hit: maximum context length" (Or.inl (by decide))

/-! ### C7 — retryability -/

/-- C7: `isRetryable` is false exactly when the classification is
`context_overflow`, `billing` or `auth`, and true for every other
classification (including `unknown`, and including an absent raw
text). -/
theorem classifier_C7_retryable :
    ∀ raw : Option String,
      isRetryable raw = false ↔
        (classifyError raw = .context_overflow ∨ classifyError raw = .billing ∨
          classifyError raw = .auth) := by
  intro raw
  cases h : classifyError raw <;>
    simp [isRetryable, isNonRetryableError, h] <;> decide

/-- Witness for C7 at a concrete billing message and at an absent
message. -/
theorem classifier_C7_retryable_witness :
    (isRetryable (some "insufficient balance") = false ↔
      (classifyError (some "insufficient balance") = .context_overflow ∨
        classifyError (some "insufficient balance") = .billing ∨
        classifyError (some "insufficient balance") = .auth)) ∧
    (isRetryable none = false ↔
      (classifyError none = .context_overflow ∨ classifyError none = .billing ∨
        classifyError none = .auth)) :=
  ⟨classifier_C7_retryable (some "insufficient balance"), classifier_C7_retryable none⟩

/-! ### C9 — structured detail parsing -/

/-- C9: the example detail string parses to HTTP code 402 with message
`insufficient balance`; in general the optional three-digit prefix is
what the result's `httpCode` reports, and a remainder that does not
parse as JSON yields no detail. -/
theorem classifier_C9_detail :
    parseApiErrorInfo
        (some "402 \x7b\"error\":\x7b\"message\":\"insufficient balance\"\x7d\x7d") =
      some { httpCode := some 402, type := none, code := none,
             message := some "insufficient balance", requestId := none } ∧
    (∀ s : String, jsonParse (apiDetailRemainder s).2 = none →
      parseApiErrorInfo (some s) = none) ∧
    (∀ (s : String) (info : ApiErrorInfo), parseApiErrorInfo (some s) = some info →
      info.httpCode = (apiDetailRemainder s).1) := by
  refine ⟨by decide, ?_, ?_⟩
  · intro s h
    unfold parseApiErrorInfo
    by_cases h1 : s.data = []
    · simp [h1]
    · by_cases h2 : trimL s.data = []
      · simp [h1, h2]
      · simp only [if_neg h1, if_neg h2]
        cases ht : (apiDetailRemainder s).2 with
        | nil => simp
        | cons c rest =>
          rw [ht] at h
          by_cases hc : c = lcurly
          · subst hc
            cases hl : (lcurly :: rest).getLast? with
            | none => simp [ht, hl]
            | some d =>
              by_cases hd : d = rcurly
              · simp [ht, hl, hd, h]
              · simp [ht, hl, hd]
          · simp [hc, ht]
  · intro s info h
    unfold parseApiErrorInfo at h
    by_cases h1 : s.data = []
    · simp [h1] at h
    · by_cases h2 : trimL s.data = []
      · simp [h1, h2] at h
      · simp only [if_neg h1, if_neg h2] at h
        cases ht : (apiDetailRemainder s).2 with
        | nil => rw [ht] at h; simp at h
        | cons c rest =>
          rw [ht] at h
          by_cases hc : c = lcurly
          · subst hc
            cases hl : (lcurly :: rest).getLast? with
            | none => simp [hl] at h
            | some d =>
              by_cases hd : d = rcurly
              · cases hj : jsonParse (lcurly :: rest) with
                | none => simp [hl, hd, hj] at h
                | some v =>
                  simp only [if_true, hl, hd, hj] at h
                  exact apiShapes_httpCode _ _ _ h
              · simp [hl, hd] at h
          · simp [hc] at h

/-- Witness for C9: the failure conjunct applied to a concrete
non-JSON detail string. -/
theorem classifier_C9_detail_witness :
    parseApiErrorInfo (some "plainly not a detail") = none :=
  classifier_C9_detail.2.1 "plainly not a detail" (by rfl)

/-! ### C8 — SSE chunking invariance -/

theorem splitCR_snd_no_nl : ∀ l : List Char, '\n' ∉ (splitCR l).2 := by
  intro l
  induction l with
  | nil => simp [splitCR]
  | cons c rest ih =>
    by_cases hc : c = '\n'
    · simp [splitCR, hc, ih]
    · cases hx : (splitCR rest).1 with
      | nil =>
        simp only [splitCR, hx, if_neg hc]
        intro hmem
        rcases List.mem_cons.mp hmem with h | h
        · exact hc h.symm
        · exact ih h
      | cons m ms => simp [splitCR, hc, hx, ih]

theorem splitCR_of_no_nl : ∀ l : List Char, '\n' ∉ l → splitCR l = ([], l) := by
  intro l h
  induction l with
  | nil => rfl
  | cons c rest ih =>
    have hc : c ≠ '\n' := fun he => h (he ▸ List.mem_cons_self c rest)
    have hr := ih (fun hm => h (List.mem_cons_of_mem c hm))
    simp [splitCR, hr, fun he => hc he]

theorem processLines_append (st : SseState) (a b : List (List Char)) :
    processLines st (a ++ b) = processLines (processLines st a) b := by
  simp [processLines, List.foldl_append]

theorem splitCR_append_nil (x y : List Char) (hy : (splitCR y).1 = []) :
    splitCR (x ++ y) = ((splitCR x).1, (splitCR x).2 ++ (splitCR y).2) := by
  induction x with
  | nil =>
    simp only [List.nil_append]
    refine Prod.ext ?_ ?_ <;> simp [splitCR, hy]
  | cons c x ih =>
    by_cases hc : c = '\n'
    · simp [splitCR, hc, ih]
    · cases hx : (splitCR x).1 with
      | nil => simp [splitCR, hc, ih, hx]
      | cons m ms => simp [splitCR, hc, ih, hx]

theorem splitCR_append_cons (x y l : List Char) (ls : List (List Char))
    (hy : (splitCR y).1 = l :: ls) :
    splitCR (x ++ y) = ((splitCR x).1 ++ ((splitCR x).2 ++ l) :: ls, (splitCR y).2) := by
  induction x with
  | nil =>
    simp only [List.nil_append]
    refine Prod.ext ?_ ?_ <;> simp [splitCR, hy]
  | cons c x ih =>
    by_cases hc : c = '\n'
    · simp [splitCR, hc, ih]
    · cases hx : (splitCR x).1 with
      | nil => simp [splitCR, hc, ih, hx]
      | cons m ms => simp [splitCR, hc, ih, hx]

theorem feed_invariant (chunks : List (List Char)) :
    chunks.foldl feedChunk initChunk =
      { buffer := (splitCR chunks.flatten).2,
        st := processLines initSse (splitCR chunks.flatten).1 } := by
  induction chunks using List.reverseRecOn with
  | nil => simp [initChunk, splitCR, processLines]
  | append_singleton xs d ih =>
    rw [List.foldl_append, ih]
    simp only [List.foldl_cons, List.foldl_nil, List.flatten_append]
    have hflat : ([d] : List (List Char)).flatten = d := by simp
    rw [hflat]
    have hr : splitCR (splitCR xs.flatten).2 = ([], (splitCR xs.flatten).2) :=
      splitCR_of_no_nl _ (splitCR_snd_no_nl _)
    cases hd : (splitCR d).1 with
    | nil =>
      have h1 := splitCR_append_nil (splitCR xs.flatten).2 d hd
      have h2 := splitCR_append_nil xs.flatten d hd
      rw [hr] at h1
      simp only [feedChunk, h1, h2]
      simp [processLines]
    | cons l ls =>
      have h1 := splitCR_append_cons (splitCR xs.flatten).2 d l ls hd
      have h2 := splitCR_append_cons xs.flatten d l ls hd
      rw [hr] at h1
      simp only [feedChunk, h1, h2]
      simp [processLines_append]

/-- C8: the chunked SSE parser run — stateful buffer, last line held
back at every read, full flush at end of stream — computes exactly the
one-shot parse of the concatenated stream text, for every way of
splitting the text into chunks (including splits in the middle of a
line).  In the one-shot parse, every complete `data:` line with a
non-empty payload appends exactly one `(event, data)` pair, so the
same holds for any chunking. -/
theorem sse_C8_chunk_invariance :
    ∀ chunks : List (List Char), sseRun chunks = sseOneShot chunks.flatten := by
  intro chunks
  rw [sseRun, feed_invariant]
  unfold flushEnd sseOneShot
  simp only []
  rw [splitCR_of_no_nl _ (splitCR_snd_no_nl chunks.flatten)]
  rw [processLines_append]
  simp [processLines]

/-! ### C2 — no first-partial-wins policy in the code -/

/-- Counterexample to C2: after a `messages/partial` event delivered
the delta `"a"`, a subsequent final-variant `messages` event still
yields a `text-delta` (`"b"`); the final-variant event is not
ignored. -/
theorem remote_C2_counterexample :
    deltaStrs (remoteFromPairs "t"
      [(some "messages/partial".data, "[\x7b\"content\":\"a\"\x7d]".data),
       (some "messages".data, "[\x7b\"content\":\"b\"\x7d]".data)]).out =
      [some "a", some "b"] := by decide

/-- C2 amended: the proxy treats the final-variant `messages` event and
the partial-variant `messages/partial` event identically — each such
event with truthy extracted content yields a `text-delta`, regardless
of any previously observed partial events; no first-partial-wins
suppression exists. -/
theorem remote_C2_amended :
    ∀ (textId : String) (st : RemoteState) (d : List Char),
      remoteStep textId st (some "messages".data, d) =
        remoteStep textId st (some "messages/partial".data, d) := by
  intro textId st d
  cases h : jsonParse d with
  | none => simp [remoteStep, h]
  | some v => simp [remoteStep, h]

/-! ### C3 — no top-level-run filtering in the code -/

/-- Counterexample to C3: a message whose `id` carries no top-level-run
marker prefix still contributes a `text-delta`. -/
theorem remote_C3_counterexample :
    deltaStrs (remoteFromPairs "t"
      [(some "messages".data,
        "[\x7b\"id\":\"child-run-7\",\"content\":\"x\"\x7d]".data)]).out =
      [some "x"] := by decide

/-- C3 amended: the delta extraction never inspects the upstream
message id — adding or removing an `id` field leaves the emission
unchanged, so nested/child-run messages contribute deltas exactly like
top-level ones. -/
theorem remote_C3_amended :
    ∀ (textId : String) (st : RemoteState) (v : Jv) (fs : List (List Char × Jv)),
      remoteHandlePayload textId st (.arr [.obj (("id".data, v) :: fs)]) =
        remoteHandlePayload textId st (.arr [.obj fs]) := by
  intro textId st v fs
  have e1 : deltaOf (jIndex0 (.arr [.obj (("id".data, v) :: fs)])) =
      deltaOf (jIndex0 (.arr [.obj fs])) := by
    simp only [jIndex0, List.head?]
    simp only [deltaOf, jProp]
    rw [jGet_cons_ne "id".data "content".data v fs (by decide),
      jGet_cons_ne "id".data "text".data v fs (by decide)]
  unfold remoteHandlePayload
  rw [e1]

/-! ### C4 — append failure is surfaced, not swallowed -/

/-- Counterexample to C4: with the turn already finished (`finish-step`
and `finish` sent), a rejected history append reaches the route's
`catch`, which sends a further `error` event to the client; the claim
that no further outbound event is emitted is false. -/
theorem route_C4_counterexample :
    (runLocal "m" "t" [AgentEvent.done "hi"] none (some "db down")).events =
      [.start "m", .startStep, .textStart "t", .textDelta "t" (.str "hi".data),
       .textEnd "t", .finishStep, .finish, .error "db down"] ∧
    lastErrText (runLocal "m" "t" [AgentEvent.done "hi"] none (some "db down")).events =
      some "db down" ∧
    (runLocal "m" "t" [AgentEvent.done "hi"] none (some "db down")).closed = true :=
  ⟨rfl, rfl, rfl⟩

/-- C4 amended: when the Session History Store append for a finished
turn fails, the failure is caught by the turn's top-level handler,
which emits exactly one further `error` event after `finish-step` and
`finish`; the stream still closes. -/
theorem route_C4_amended :
    ∀ (mid tid : String) (es : List AgentEvent) (a m : String), a ≠ "" →
      (runLocal mid tid (es ++ [.done a]) none (some m)).closed = true ∧
      ∃ p, (runLocal mid tid (es ++ [.done a]) none (some m)).events =
        p ++ [.finishStep, .finish, .error m] := by
  intro mid tid es a m ha
  constructor
  · rfl
  · refine ⟨[.start mid, .startStep] ++ (runAgentLoop tid es).out ++
      [.textStart tid, .textDelta tid (.str a.data), .textEnd tid], ?_⟩
    unfold runLocal
    rw [runAgentLoop, List.foldl_append]
    simp only [List.foldl_cons, List.foldl_nil]
    rw [show es.foldl (stepEvent tid) initLoop = runAgentLoop tid es from rfl]
    simp [stepEvent, ha]

/-- Witness for the amended C4, at an empty tool phase, answer `hi`
and failure message `db down`. -/
theorem route_C4_amended_witness :
    (runLocal "m" "t" ([] ++ [.done "hi"]) none (some "db down")).closed = true ∧
    ∃ p, (runLocal "m" "t" ([] ++ [.done "hi"]) none (some "db down")).events =
      p ++ [.finishStep, .finish, .error "db down"] :=
  route_C4_amended "m" "t" [] "hi" "db down" (by decide)

/-! ### C10 — tool-call id uniqueness -/

theorem idLe_mono {c c2 : Nat} {id : String} (hle : c ≤ c2) (h : idLe c id) :
    idLe c2 id := by
  obtain ⟨n, h1, h2, h3⟩ := h
  exact ⟨n, h1, Nat.le_trans h2 hle, h3⟩

theorem idLe_ne_next {c : Nat} {id : String} (h : idLe c id) :
    id ≠ mkToolId (c + 1) := by
  obtain ⟨n, h1, h2, h3⟩ := h
  intro he
  have : n = c + 1 := mkToolId_injective (h3 ▸ he)
  omega

@[simp] theorem inIds_append (a b : List OutEvent) :
    inIds (a ++ b) = inIds a ++ inIds b := by
  simp [inIds, List.filterMap_append]

@[simp] theorem outIds_append (a b : List OutEvent) :
    outIds (a ++ b) = outIds a ++ outIds b := by
  simp [outIds, List.filterMap_append]

@[simp] theorem inIds_in_singleton (id nm a : String) :
    inIds [.toolInput id nm a] = [id] := rfl

@[simp] theorem inIds_out_singleton (id o : String) :
    inIds [.toolOutput id o] = [] := rfl

@[simp] theorem outIds_in_singleton (id nm a : String) :
    outIds [.toolInput id nm a] = [] := rfl

@[simp] theorem outIds_out_singleton (id o : String) :
    outIds [.toolOutput id o] = [id] := rfl

@[simp] theorem inIds_done_block (t : String) (d : Jv) :
    inIds [.textStart t, .textDelta t d, .textEnd t, .finishStep, .finish] = [] := rfl

@[simp] theorem outIds_done_block (t : String) (d : Jv) :
    outIds [.textStart t, .textDelta t d, .textEnd t, .finishStep, .finish] = [] := rfl

theorem noLateInputAux_cond (e : OutEvent) (rev : List OutEvent) :
    noLateInputAux (e :: rev) ↔
      (match e with
       | .toolInput id _ _ => id ∉ outIds rev.reverse
       | _ => True) ∧ noLateInputAux rev := Iff.rfl

theorem noLateInput_append_noIn (l ext : List OutEvent) (h : noLateInput l)
    (hext : ∀ e ∈ ext, isInEv e = false) : noLateInput (l ++ ext) := by
  induction ext generalizing l with
  | nil => simpa using h
  | cons e rest ih =>
    have hstep : noLateInput (l ++ [e]) := by
      unfold noLateInput
      rw [List.reverse_append]
      simp only [List.reverse_cons, List.reverse_nil, List.nil_append, List.singleton_append]
      rw [noLateInputAux_cond]
      refine ⟨?_, h⟩
      have he := hext e (by simp)
      cases e <;> simp_all [isInEv]
    have : l ++ e :: rest = (l ++ [e]) ++ rest := by simp
    rw [this]
    exact ih (l ++ [e]) hstep (fun x hx => hext x (by simp [hx]))

theorem noLateInput_append_in (l : List OutEvent) (id nm ar : String)
    (h : noLateInput l) (hf : id ∉ outIds l) :
    noLateInput (l ++ [.toolInput id nm ar]) := by
  unfold noLateInput
  rw [List.reverse_append]
  simp only [List.reverse_cons, List.reverse_nil, List.nil_append, List.singleton_append]
  rw [noLateInputAux_cond]
  exact ⟨by simpa using hf, h⟩

theorem findRemove_split (l : List (String × String)) (name id : String)
    (rest : List (String × String)) (h : findRemove l name = some (id, rest)) :
    ∃ l1 l2, l = l1 ++ (name, id) :: l2 ∧ rest = l1 ++ l2 := by
  induction l generalizing rest with
  | nil => exact absurd h (by simp [findRemove])
  | cons e tl ih =>
    by_cases he : e.1 = name
    · simp only [findRemove, if_pos he] at h
      injection h with h2
      injection h2 with ha hb
      refine ⟨[], tl, ?_, ?_⟩
      · simp [← ha, ← he]
      · simp [hb]
    · simp only [findRemove, if_neg he] at h
      cases hf : findRemove tl name with
      | none => rw [hf] at h; exact absurd h (by simp)
      | some p =>
        obtain ⟨id2, rest2⟩ := p
        rw [hf] at h
        injection h with h2
        injection h2 with ha hb
        obtain ⟨l1, l2, hl, hr⟩ := ih rest2 (by rw [hf, ha])
        exact ⟨e :: l1, l2, by simp [hl], by simp [← hb, hr]⟩

theorem resolve_step_inv (s : LoopState) (t outStr : String) (h : LoopInv s) :
    LoopInv { s with corr := (resolve s.corr t).1,
                     out := s.out ++ [.toolOutput (resolve s.corr t).2 outStr] } := by
  obtain ⟨h1, h2, h3, h4, h5, h6, h7, h8⟩ := h
  cases hf : findRemove s.corr.calls t with
  | some p =>
    obtain ⟨id, rest⟩ := p
    obtain ⟨l1, l2, hl, hr⟩ := findRemove_split s.corr.calls t id rest hf
    have hmem : (t, id) ∈ s.corr.calls := by rw [hl]; simp
    have hidLe : idLe s.corr.counter id := h1 (t, id) hmem
    have hid_not_out : id ∉ outIds s.out := h6 (t, id) hmem
    have hsub : rest.Sublist s.corr.calls := by
      rw [hl, hr]
      exact (List.Sublist.refl l1).append (List.sublist_cons_self _ l2)
    have hrest_mem : ∀ p ∈ rest, p ∈ s.corr.calls := fun p hp => hsub.mem hp
    have hid_not_rest : id ∉ List.map Prod.snd rest := by
      rw [hl] at h7
      rw [hr]
      simp only [List.map_append, List.map_cons] at h7 ⊢
      have h9 := List.nodup_middle.mp h7
      rw [List.nodup_cons] at h9
      simpa using h9.1
    unfold LoopInv
    simp only [resolve, hf]
    refine ⟨?_, ?_, ?_, ?_, ?_, ?_, ?_, ?_⟩
    · intro p hp; exact h1 p (hrest_mem p hp)
    · intro i hi
      simp only [inIds_append, inIds_out_singleton, List.append_nil] at hi
      exact h2 i hi
    · intro i hi
      simp only [outIds_append, outIds_out_singleton] at hi
      rcases List.mem_append.mp hi with hi | hi
      · exact h3 i hi
      · rw [List.mem_singleton.mp hi]; exact hidLe
    · simpa using h4
    · simp only [outIds_append, outIds_out_singleton]
      refine List.nodup_append.mpr ⟨h5, List.nodup_singleton id, ?_⟩
      intro a ha hb
      rw [List.mem_singleton.mp hb] at ha
      exact hid_not_out ha
    · intro p hp
      simp only [outIds_append, outIds_out_singleton]
      intro hmem2
      rcases List.mem_append.mp hmem2 with hm | hm
      · exact h6 p (hrest_mem p hp) hm
      · apply hid_not_rest
        rw [← List.mem_singleton.mp hm]
        exact List.mem_map_of_mem Prod.snd hp
    · rw [hl] at h7; rw [hr]
      simp only [List.map_append, List.map_cons] at h7 ⊢
      exact List.Nodup.sublist
        ((List.Sublist.refl _).append (List.sublist_cons_self _ _)) h7
    · exact noLateInput_append_noIn s.out _ h8 (by simp [isInEv])
  | none =>
    unfold LoopInv
    simp only [resolve, hf]
    refine ⟨?_, ?_, ?_, ?_, ?_, ?_, ?_, ?_⟩
    · intro p hp; exact idLe_mono (Nat.le_succ _) (h1 p hp)
    · intro i hi
      simp only [inIds_append, inIds_out_singleton, List.append_nil] at hi
      exact idLe_mono (Nat.le_succ _) (h2 i hi)
    · intro i hi
      simp only [outIds_append, outIds_out_singleton] at hi
      rcases List.mem_append.mp hi with hi | hi
      · exact idLe_mono (Nat.le_succ _) (h3 i hi)
      · rw [List.mem_singleton.mp hi]
        exact ⟨s.corr.counter + 1, by omega, Nat.le_refl _, rfl⟩
    · simpa using h4
    · simp only [outIds_append, outIds_out_singleton]
      refine List.nodup_append.mpr ⟨h5, List.nodup_singleton _, ?_⟩
      intro a ha hb
      rw [List.mem_singleton.mp hb] at ha
      exact idLe_ne_next (h3 _ ha) rfl
    · intro p hp
      simp only [outIds_append, outIds_out_singleton]
      intro hmem2
      rcases List.mem_append.mp hmem2 with hm | hm
      · exact h6 p hp hm
      · exact idLe_ne_next (h1 p hp) (List.mem_singleton.mp hm)
    · exact h7
    · exact noLateInput_append_noIn s.out _ h8 (by simp [isInEv])

theorem assign_step_inv (s : LoopState) (t a : String) (h : LoopInv s) :
    LoopInv { s with corr := (assign s.corr t).1,
                     out := s.out ++ [.toolInput (assign s.corr t).2 t a] } := by
  obtain ⟨h1, h2, h3, h4, h5, h6, h7, h8⟩ := h
  unfold LoopInv
  simp only [assign]
  refine ⟨?_, ?_, ?_, ?_, ?_, ?_, ?_, ?_⟩
  · intro p hp
    rcases List.mem_append.mp hp with hp | hp
    · exact idLe_mono (Nat.le_succ _) (h1 p hp)
    · rw [List.mem_singleton.mp hp]
      exact ⟨s.corr.counter + 1, by omega, Nat.le_refl _, rfl⟩
  · intro i hi
    simp only [inIds_append, inIds_in_singleton] at hi
    rcases List.mem_append.mp hi with hi | hi
    · exact idLe_mono (Nat.le_succ _) (h2 i hi)
    · rw [List.mem_singleton.mp hi]
      exact ⟨s.corr.counter + 1, by omega, Nat.le_refl _, rfl⟩
  · intro i hi
    simp only [outIds_append, outIds_in_singleton, List.append_nil] at hi
    exact idLe_mono (Nat.le_succ _) (h3 i hi)
  · simp only [inIds_append, inIds_in_singleton]
    refine List.nodup_append.mpr ⟨h4, List.nodup_singleton _, ?_⟩
    intro x hx hb
    rw [List.mem_singleton.mp hb] at hx
    exact idLe_ne_next (h2 _ hx) rfl
  · simpa using h5
  · intro p hp
    simp only [outIds_append, outIds_in_singleton, List.append_nil]
    rcases List.mem_append.mp hp with hp | hp
    · exact h6 p hp
    · rw [List.mem_singleton.mp hp]
      intro hmem
      exact idLe_ne_next (h3 _ hmem) rfl
  · simp only [List.map_append, List.map_cons, List.map_nil]
    refine List.nodup_append.mpr ⟨h7, List.nodup_singleton _, ?_⟩
    intro x hx hb
    rcases List.mem_map.mp hx with ⟨p, hp, hpx⟩
    rw [List.mem_singleton.mp hb] at hpx
    exact idLe_ne_next (h1 p hp) hpx
  · refine noLateInput_append_in s.out _ t a h8 ?_
    intro hmem
    exact idLe_ne_next (h3 _ hmem) rfl

theorem done_step_inv (tid : String) (s : LoopState) (a : String) (h : LoopInv s) :
    LoopInv { s with finalAnswer := a,
                     out := s.out ++ [.textStart tid, .textDelta tid (.str a.data),
                                      .textEnd tid, .finishStep, .finish] } := by
  obtain ⟨h1, h2, h3, h4, h5, h6, h7, h8⟩ := h
  unfold LoopInv
  refine ⟨h1, ?_, ?_, ?_, ?_, ?_, h7, ?_⟩
  · intro i hi
    simp only [inIds_append, inIds_done_block, List.append_nil] at hi
    exact h2 i hi
  · intro i hi
    simp only [outIds_append, outIds_done_block, List.append_nil] at hi
    exact h3 i hi
  · simpa using h4
  · simpa using h5
  · intro p hp
    simp only [outIds_append, outIds_done_block, List.append_nil]
    exact h6 p hp
  · exact noLateInput_append_noIn s.out _ h8 (by simp [isInEv])

theorem stepEvent_inv (tid : String) (s : LoopState) (e : AgentEvent) (h : LoopInv s) :
    LoopInv (stepEvent tid s e) := by
  cases e with
  | tool_start t a => exact assign_step_inv s t a h
  | tool_end t r => exact resolve_step_inv s t r h
  | tool_error t m => exact resolve_step_inv s t ("Error: " ++ m) h
  | done a => exact done_step_inv tid s a h

theorem loop_inv (tid : String) (es : List AgentEvent) :
    LoopInv (runAgentLoop tid es) := by
  have hinit : LoopInv initLoop := by
    refine ⟨?_, ?_, ?_, ?_, ?_, ?_, ?_, ?_⟩ <;>
      simp [initLoop, inIds, outIds, noLateInput, noLateInputAux]
  suffices hgen : ∀ (l : List AgentEvent) (s : LoopState), LoopInv s →
      LoopInv (l.foldl (stepEvent tid) s) from hgen es initLoop hinit
  intro l
  induction l with
  | nil => intro s hs; exact hs
  | cons e rest ih => intro s hs; exact ih _ (stepEvent_inv tid s e hs)

/-- C10: within one turn, the ids on `tool-input-available` events are
pairwise distinct, the ids on `tool-output-available` events are
pairwise distinct (so two events share an id only as an
input/output pair), every id was minted by the turn's single counter
(it has the form `tool-N` with `1 ≤ N ≤` the final counter), and an
output never precedes the input carrying the same id (the only shared
ids are those a resolve returned for an earlier assign). -/
theorem route_C10_tool_ids_distinct :
    ∀ (tid : String) (es : List AgentEvent),
      (inIds (runAgentLoop tid es).out).Nodup ∧
      (outIds (runAgentLoop tid es).out).Nodup ∧
      (∀ id, (id ∈ inIds (runAgentLoop tid es).out ∨
          id ∈ outIds (runAgentLoop tid es).out) →
        idLe (runAgentLoop tid es).corr.counter id) ∧
      noLateInput (runAgentLoop tid es).out := by
  intro tid es
  obtain ⟨h1, h2, h3, h4, h5, h6, h7, h8⟩ := loop_inv tid es
  exact ⟨h4, h5, fun id h => h.elim (h2 id) (h3 id), h8⟩

/-- Witness for C10: the id of the one assigned call of a concrete run
was minted by the counter. -/
theorem route_C10_tool_ids_distinct_witness :
    idLe (runAgentLoop "t" [.tool_start "w" "a"]).corr.counter "tool-1" :=
  (route_C10_tool_ids_distinct "t" [.tool_start "w" "a"]).2.2.1 "tool-1"
    (Or.inl (by decide))

/-! ### C1 — bracketing of the outbound sequence -/

theorem kindsOf_append (a b : List OutEvent) :
    kindsOf (a ++ b) = kindsOf a ++ kindsOf b := by
  simp [kindsOf]

theorem stepEvent_out_kinds (tid : String) (s : LoopState) (e : AgentEvent) :
    kindsOf (stepEvent tid s e).out = kindsOf s.out ++ kindsForAgent e := by
  cases e <;> simp [stepEvent, kindsOf, kindOf, kindsForAgent]

theorem loop_kinds (tid : String) :
    ∀ (es : List AgentEvent) (s : LoopState),
      kindsOf (es.foldl (stepEvent tid) s).out = kindsOf s.out ++ kindsFlat es := by
  intro es
  induction es with
  | nil => intro s; simp [kindsFlat]
  | cons e rest ih =>
    intro s
    rw [List.foldl_cons, ih (stepEvent tid s e), stepEvent_out_kinds, kindsFlat]
    simp [List.append_assoc]

theorem runAgentLoop_kinds (tid : String) (es : List AgentEvent) :
    kindsOf (runAgentLoop tid es).out = kindsFlat es := by
  rw [runAgentLoop, loop_kinds]
  simp [initLoop, kindsOf]

theorem kindsFlat_append (a b : List AgentEvent) :
    kindsFlat (a ++ b) = kindsFlat a ++ kindsFlat b := by
  induction a with
  | nil => simp [kindsFlat]
  | cons e rest ih => simp [kindsFlat, ih]

theorem kindsFlat_mem (es : List AgentEvent) :
    ∀ k ∈ kindsFlat es,
      k = EKind.toolInput ∨ k = EKind.toolOutput ∨ k = EKind.textStart ∨
      k = EKind.textDelta ∨ k = EKind.textEnd ∨ k = EKind.finishStep ∨
      k = EKind.finish := by
  induction es with
  | nil => simp [kindsFlat]
  | cons e rest ih =>
    intro k hk
    rw [kindsFlat] at hk
    rcases List.mem_append.mp hk with h | h
    · cases e <;> simp [kindsForAgent] at h <;> tauto
    · exact ih k h

theorem kindsFlat_count_zero (es : List AgentEvent) (k : EKind)
    (hk : k ≠ .toolInput ∧ k ≠ .toolOutput ∧ k ≠ .textStart ∧ k ≠ .textDelta ∧
      k ≠ .textEnd ∧ k ≠ .finishStep ∧ k ≠ .finish) :
    (kindsFlat es).count k = 0 :=
  List.count_eq_zero.mpr fun hmem => by
    rcases kindsFlat_mem es k hmem with h | h | h | h | h | h | h <;> tauto

theorem kindsFlat_done_free_mem (es : List AgentEvent) (h : es.countP isDoneEv = 0) :
    ∀ k ∈ kindsFlat es, k = EKind.toolInput ∨ k = EKind.toolOutput := by
  induction es with
  | nil => simp [kindsFlat]
  | cons e rest ih =>
    rw [List.countP_cons] at h
    have he : isDoneEv e = false := by
      cases hb : isDoneEv e with
      | false => rfl
      | true => rw [hb] at h; simp at h
    have hrest : rest.countP isDoneEv = 0 := by
      rw [he] at h; simpa using h
    intro k hk
    rw [kindsFlat] at hk
    rcases List.mem_append.mp hk with hm | hm
    · cases e <;> simp [isDoneEv] at he <;> simp [kindsForAgent] at hm <;> tauto
    · exact ih hrest k hm

theorem kindsFlat_done_free_count (es : List AgentEvent) (h : es.countP isDoneEv = 0)
    (k : EKind) (hk : k ≠ .toolInput ∧ k ≠ .toolOutput) :
    (kindsFlat es).count k = 0 :=
  List.count_eq_zero.mpr fun hmem => by
    rcases kindsFlat_done_free_mem es h k hmem with h2 | h2 <;> tauto

theorem loop_finalAnswer (tid : String) (es : List AgentEvent) (a : String) :
    (runAgentLoop tid (es ++ [.done a])).finalAnswer = a := by
  rw [runAgentLoop, List.foldl_append]
  simp [stepEvent]

theorem remoteStep_out_mem (tid : String) (st : RemoteState)
    (pr : Option (List Char) × List Char) :
    ∀ e ∈ (remoteStep tid st pr).out,
      e ∈ st.out ∨ kindOf e = .textStart ∨ kindOf e = .textDelta := by
  intro e he
  unfold remoteStep at he
  cases hj : jsonParse pr.2 with
  | none => rw [hj] at he; exact Or.inl he
  | some v =>
    rw [hj] at he
    dsimp only at he
    by_cases hc : pr.1 = some "messages".data ∨ pr.1 = some "messages/partial".data
    · rw [if_pos hc] at he
      unfold remoteHandlePayload at he
      by_cases ht : jvTruthy (deltaOf (jIndex0 v))
      · rw [if_pos ht] at he
        by_cases hs : st.started
        · simp only [if_pos hs] at he
          rcases List.mem_append.mp he with h | h
          · exact Or.inl h
          · rw [List.mem_singleton.mp h]; right; right; rfl
        · simp only [if_neg hs] at he
          rcases List.mem_append.mp he with h | h
          · rcases List.mem_append.mp h with h2 | h2
            · exact Or.inl h2
            · rw [List.mem_singleton.mp h2]; right; left; rfl
          · rw [List.mem_singleton.mp h]; right; right; rfl
      · rw [if_neg ht] at he; exact Or.inl he
    · rw [if_neg hc] at he; exact Or.inl he

theorem remoteFromPairs_kinds (tid : String)
    (pairs : List (Option (List Char) × List Char)) :
    ∀ e ∈ (remoteFromPairs tid pairs).out,
      kindOf e = .textStart ∨ kindOf e = .textDelta := by
  suffices hgen : ∀ (ps : List (Option (List Char) × List Char)) (st : RemoteState),
      (∀ e ∈ st.out, kindOf e = .textStart ∨ kindOf e = .textDelta) →
      ∀ e ∈ (ps.foldl (remoteStep tid) st).out,
        kindOf e = .textStart ∨ kindOf e = .textDelta by
    exact hgen pairs { started := false, out := [] } (by simp)
  intro ps
  induction ps with
  | nil => intro st hst; exact hst
  | cons pr rest ih =>
    intro st hst
    refine ih (remoteStep tid st pr) ?_
    intro e he
    rcases remoteStep_out_mem tid st pr e he with h | h | h
    · exact hst e h
    · exact Or.inl h
    · exact Or.inr h

theorem remote_kinds_count_zero (tid : String)
    (pairs : List (Option (List Char) × List Char)) (k : EKind)
    (hk : k ≠ .textStart ∧ k ≠ .textDelta) :
    (kindsOf (remoteFromPairs tid pairs).out).count k = 0 :=
  List.count_eq_zero.mpr fun hmem => by
    rcases List.mem_map.mp hmem with ⟨e, he, hke⟩
    rcases remoteFromPairs_kinds tid pairs e he with h | h <;>
      rw [h] at hke <;> tauto

/-- C1: for every turn, the outbound event-type sequence starts with
exactly one `start` immediately followed by exactly one `start-step`,
and ends either with exactly one `finish-step` followed by exactly one
`finish`, or with exactly one `error` after which nothing is emitted.
For the local transport the agent stream is assumed to be well-behaved:
either the iteration fails (throws), or its event list ends with its
single `done` event.  On the remote transport's success path the
sequence satisfies the error-terminated disjunct: the stray
`controller.close()` appends one `error` event after `finish`. -/
theorem route_C1_bracketing :
    (∀ (mid tid : String) (es : List AgentEvent) (iterFail appendFail : Option String),
      (iterFail ≠ none ∨
        ∃ es2 a, es = es2 ++ [AgentEvent.done a] ∧ es2.countP isDoneEv = 0) →
      goodKinds (kindsOf (runLocal mid tid es iterFail appendFail).events)) ∧
    (∀ (mid tid : String) (oc : RemoteOutcome),
      goodKinds (kindsOf (runRemote mid tid oc).events)) := by
  constructor
  · intro mid tid es iterFail appendFail h
    cases iterFail with
    | some m =>
      have hev : (runLocal mid tid es (some m) appendFail).events =
          [OutEvent.start mid, OutEvent.startStep] ++ (runAgentLoop tid es).out ++
            [OutEvent.error m] := rfl
      rw [hev, kindsOf_append, kindsOf_append, runAgentLoop_kinds]
      have h2 : kindsOf [OutEvent.start mid, OutEvent.startStep] =
          [EKind.start, EKind.startStep] := rfl
      have h3 : kindsOf [OutEvent.error m] = [EKind.error] := rfl
      rw [h2, h3]
      constructor
      · refine ⟨kindsFlat es ++ [.error], by simp, ?_, ?_⟩
        · simp [List.count_append, kindsFlat_count_zero es .start (by simp)]
        · simp [List.count_append, kindsFlat_count_zero es .startStep (by simp)]
      · refine Or.inr ⟨?_, ?_⟩
        · simp [List.count_append, kindsFlat_count_zero es .error (by simp)]
        · exact ⟨[EKind.start, EKind.startStep] ++ kindsFlat es, by simp⟩
    | none =>
      rcases h with hif | ⟨es2, a, hes, hdf⟩
      · exact absurd rfl hif
      · subst hes
        have hev : (runLocal mid tid (es2 ++ [.done a]) none appendFail).events =
            [OutEvent.start mid, OutEvent.startStep] ++
              (runAgentLoop tid (es2 ++ [.done a])).out ++
              (if (runAgentLoop tid (es2 ++ [.done a])).finalAnswer = "" then []
               else
                 match appendFail with
                 | some m2 => [OutEvent.error m2]
                 | none => []) := rfl
        rw [hev, loop_finalAnswer, kindsOf_append, kindsOf_append,
          runAgentLoop_kinds, kindsFlat_append]
        have h2 : kindsOf [OutEvent.start mid, OutEvent.startStep] =
            [EKind.start, EKind.startStep] := rfl
        have hblock : kindsFlat [AgentEvent.done a] =
            [.textStart, .textDelta, .textEnd, .finishStep, .finish] := rfl
        rw [h2, hblock]
        have hcz := fun k hk => kindsFlat_done_free_count es2 hdf k hk
        by_cases ha : a = ""
        · rw [if_pos ha]
          have h3 : kindsOf [] = [] := rfl
          rw [h3]
          constructor
          · refine ⟨kindsFlat es2 ++
              [.textStart, .textDelta, .textEnd, .finishStep, .finish], by simp, ?_, ?_⟩
            · simp [List.count_append, hcz .start (by simp)]
            · simp [List.count_append, hcz .startStep (by simp)]
          · refine Or.inl ⟨?_, ?_, ?_⟩
            · simp [List.count_append, hcz .finishStep (by simp)]
            · simp [List.count_append, hcz .finish (by simp)]
            · exact ⟨[EKind.start, EKind.startStep] ++ kindsFlat es2 ++
                [.textStart, .textDelta, .textEnd], by simp⟩
        · rw [if_neg ha]
          cases appendFail with
          | none =>
            have h3 : kindsOf [] = [] := rfl
            rw [h3]
            constructor
            · refine ⟨kindsFlat es2 ++
                [.textStart, .textDelta, .textEnd, .finishStep, .finish], by simp, ?_, ?_⟩
              · simp [List.count_append, hcz .start (by simp)]
              · simp [List.count_append, hcz .startStep (by simp)]
            · refine Or.inl ⟨?_, ?_, ?_⟩
              · simp [List.count_append, hcz .finishStep (by simp)]
              · simp [List.count_append, hcz .finish (by simp)]
              · exact ⟨[EKind.start, EKind.startStep] ++ kindsFlat es2 ++
                  [.textStart, .textDelta, .textEnd], by simp⟩
          | some m2 =>
            have h3 : kindsOf [OutEvent.error m2] = [EKind.error] := rfl
            rw [h3]
            constructor
            · refine ⟨kindsFlat es2 ++
                [.textStart, .textDelta, .textEnd, .finishStep, .finish] ++
                [EKind.error], by simp, ?_, ?_⟩
              · simp [List.count_append, hcz .start (by simp)]
              · simp [List.count_append, hcz .startStep (by simp)]
            · refine Or.inr ⟨?_, ?_⟩
              · simp [List.count_append, hcz .error (by simp)]
              · exact ⟨[EKind.start, EKind.startStep] ++ kindsFlat es2 ++
                  [.textStart, .textDelta, .textEnd, .finishStep, .finish], by simp⟩
  · intro mid tid oc
    cases oc with
    | fetchThrow m =>
      have hk : kindsOf (runRemote mid tid (.fetchThrow m)).events =
          [EKind.start, EKind.startStep, EKind.error] := rfl
      rw [hk]
      exact ⟨⟨[.error], rfl, by decide, by decide⟩,
        Or.inr ⟨by decide, [.start, .startStep], rfl⟩⟩
    | notOk t =>
      have hk : kindsOf (runRemote mid tid (.notOk t)).events =
          [EKind.start, EKind.startStep, EKind.error] := rfl
      rw [hk]
      exact ⟨⟨[.error], rfl, by decide, by decide⟩,
        Or.inr ⟨by decide, [.start, .startStep], rfl⟩⟩
    | ok chunks =>
      have hz := fun k hk => remote_kinds_count_zero tid (sseRun chunks).pairs k hk
      have hev : (runRemote mid tid (.ok chunks)).events =
          [OutEvent.start mid, OutEvent.startStep] ++
            (remoteFromPairs tid (sseRun chunks).pairs).out ++
            ((if (remoteFromPairs tid (sseRun chunks).pairs).started
              then [OutEvent.textEnd tid] else []) ++
              [OutEvent.finishStep, OutEvent.finish,
                OutEvent.error ctrlNotDefinedMsg]) := rfl
      rw [hev, kindsOf_append, kindsOf_append]
      have h2 : kindsOf [OutEvent.start mid, OutEvent.startStep] =
          [EKind.start, EKind.startStep] := rfl
      rw [h2]
      by_cases hs : (remoteFromPairs tid (sseRun chunks).pairs).started
      · rw [if_pos hs]
        have h3 : kindsOf ([OutEvent.textEnd tid] ++
            [OutEvent.finishStep, OutEvent.finish, OutEvent.error ctrlNotDefinedMsg]) =
            [EKind.textEnd, EKind.finishStep, EKind.finish, EKind.error] := rfl
        rw [h3]
        constructor
        · refine ⟨kindsOf (remoteFromPairs tid (sseRun chunks).pairs).out ++
            [.textEnd, .finishStep, .finish, .error], by simp, ?_, ?_⟩
          · simp [List.count_append, hz .start (by simp)]
          · simp [List.count_append, hz .startStep (by simp)]
        · refine Or.inr ⟨?_, ?_⟩
          · simp [List.count_append, hz .error (by simp)]
          · exact ⟨[EKind.start, EKind.startStep] ++
              kindsOf (remoteFromPairs tid (sseRun chunks).pairs).out ++
              [.textEnd, .finishStep, .finish], by simp⟩
      · rw [if_neg hs]
        have h3 : kindsOf (([] : List OutEvent) ++
            [OutEvent.finishStep, OutEvent.finish, OutEvent.error ctrlNotDefinedMsg]) =
            [EKind.finishStep, EKind.finish, EKind.error] := rfl
        rw [h3]
        constructor
        · refine ⟨kindsOf (remoteFromPairs tid (sseRun chunks).pairs).out ++
            [.finishStep, .finish, .error], by simp, ?_, ?_⟩
          · simp [List.count_append, hz .start (by simp)]
          · simp [List.count_append, hz .startStep (by simp)]
        · refine Or.inr ⟨?_, ?_⟩
          · simp [List.count_append, hz .error (by simp)]
          · exact ⟨[EKind.start, EKind.startStep] ++
              kindsOf (remoteFromPairs tid (sseRun chunks).pairs).out ++
              [.finishStep, .finish], by simp⟩

/-- Witness for C1: a concrete local turn whose agent stream ends with
its single `done` event. -/
theorem route_C1_bracketing_witness :
    goodKinds (kindsOf (runLocal "m" "t" ([] ++ [AgentEvent.done "hi"])
      none none).events) :=
  route_C1_bracketing.1 "m" "t" ([] ++ [.done "hi"]) none none
    (Or.inr ⟨[], "hi", rfl, rfl⟩)

end TinyD
